import Mathlib

/-!
# OSMDigest: a verification development

Shallow embedding of the core of the OSMDigest library (modules
`osmdigest.sqlite`, `osmdigest.richobjs`, `osmdigest.digest`,
`osmdigest.detail`) together with proofs about the embedded code.

Conventions of the embedding:

* Python numbers appearing in coordinate arithmetic are modelled as
  rationals (`ℚ`); Python `int()` truncation-toward-zero is modelled
  explicitly by `pyInt`.
* SQLite tables are modelled as Lean lists of row structures; a SQL
  `select … where` is the corresponding list `filter`, `fetchone` is
  `List.find?`, and insertion order is list order.
* Python exceptions are modelled with `Except Err`; each `Err`
  constructor documents which Python exception it stands for.
* Python strings manipulated character-by-character (the `gentime`
  round-trip) are modelled as `List Char`.
-/

namespace OSMDigest

/-- Python `int()` applied to a rational: truncation toward zero
(floor for non-negative arguments, ceiling for negative ones). -/
def pyInt (q : ℚ) : ℤ :=
  if 0 ≤ q then ⌊q⌋ else ⌈q⌉

/-- `osmdigest.sqlite._to_num`: encode a degree value as a scaled
integer.  Source: `if fl >= 0: return int(fl * 1e7 + 0.5)` else
`return int(fl * 1e7 - 0.5)`. -/
def to_num (fl : ℚ) : ℤ :=
  if 0 ≤ fl then pyInt (fl * 10 ^ 7 + 1 / 2) else pyInt (fl * 10 ^ 7 - 1 / 2)

/-- `osmdigest.sqlite._to_float`: decode a scaled integer back to
degrees.  Source: `return num / 1e7`. -/
def to_float (num : ℤ) : ℚ :=
  (num : ℚ) / 10 ^ 7

/-- The error domain of the embedding.  Each constructor documents the
Python exception (or spec error name) it models. -/
inductive Err where
  /-- Python `KeyError` raised by `node`/`way`/`relation` lookups. -/
  | keyError (kind : String) (osm_id : Int)
  /-- Python `ValueError` (empty search predicate, rich-object
  validation failures, bad attribute values, …). -/
  | valueError
  /-- The `ValueError` that `detail.OSMElement.__init__` raises when it
  wraps the `Exception("Element not visible!")`. -/
  | nonVisible
  /-- Python `AttributeError` from dereferencing `None`. -/
  | attributeError
  /-- Python `ZeroDivisionError`. -/
  | zeroDivision
  /-- Python `RecursionError`: the recursion depth budget ran out. -/
  | recursionLimit
  /-- The spec's `CyclicRelation(id)` error.  No code path of the
  embedded source constructs this value. -/
  | cyclicRelation (osm_id : Int)
  /-- The spec's `UndefinedCentroid` error.  No code path of the
  embedded source constructs this value. -/
  | undefinedCentroid
  /-- Python `KeyError` from a missing XML attribute (`attrs[...]`). -/
  | missingAttr (name : String)
deriving DecidableEq, Repr

/-- `digest.Node`: id, coordinates and a tag map (association list in
insertion order; `add_tag`, used by `sqlite.py` but elided in
`digest.py`, is dictionary insertion per the spec's tag-map model). -/
structure Node where
  osm_id : Int
  longitude : ℚ
  latitude : ℚ
  tags : List (String × String)
deriving DecidableEq, Repr

/-- `digest.Way`: id, ordered node-id list and tag map.  `add_node`
appends to the node list (spec: "ordered node id sequence"). -/
structure Way where
  osm_id : Int
  nodes : List Int
  tags : List (String × String)
deriving DecidableEq, Repr

/-- `digest.Member`, the namedtuple `(type, ref, role)`. -/
structure Member where
  type : String
  ref : Int
  role : String
deriving DecidableEq, Repr

/-- `digest.Relation`: id, ordered member list and tag map. -/
structure Relation where
  osm_id : Int
  members : List Member
  tags : List (String × String)
deriving DecidableEq, Repr

/-- A row of the `nodes` table: coordinates stored encoded. -/
structure NodeRow where
  osm_id : Int
  longitude : Int
  latitude : Int
deriving DecidableEq, Repr

/-- A row of the `ways` table. -/
structure WayRow where
  osm_id : Int
  position : Int
  noderef : Int
deriving DecidableEq, Repr

/-- A row of the `relations` table. -/
structure RelationRow where
  osm_id : Int
  member : String
  memberref : Int
  role : String
deriving DecidableEq, Repr

/-- A row of one of the three `*_tags` tables. -/
structure TagRow where
  osm_id : Int
  key : String
  value : String
deriving DecidableEq, Repr

/-- The relational store behind `OSM_SQLite` (the six data tables of
`_schema_db`); each table is its list of rows in insertion order. -/
structure DB where
  nodes : List NodeRow
  node_tags : List TagRow
  ways : List WayRow
  way_tags : List TagRow
  relations : List RelationRow
  relation_tags : List TagRow
deriving DecidableEq, Repr

/-- `OSM_SQLite._get_tags`: `select key, value from <table> where
osm_id=?`, collected into a tag map. -/
def get_tags (table : List TagRow) (osm_id : Int) : List (String × String) :=
  (table.filter (fun r => r.osm_id == osm_id)).map (fun r => (r.key, r.value))

/-- `OSM_SQLite.node`: `select * from nodes where nodes.osm_id=?`
(`fetchone` = first matching row), `KeyError` when absent, then
`_node_from_obj` decodes coordinates and attaches tags. -/
def DB.node (db : DB) (osm_id : Int) : Except Err Node :=
  match db.nodes.find? (fun r => r.osm_id == osm_id) with
  | none => .error (.keyError "Node" osm_id)
  | some r =>
    .ok { osm_id := r.osm_id,
          longitude := to_float r.longitude,
          latitude := to_float r.latitude,
          tags := get_tags db.node_tags r.osm_id }

/-- `OSM_SQLite.way`: `select noderef from ways where osm_id=? order by
position`; `KeyError` when no rows; node refs appended in query order
and tags attached. -/
def DB.way (db : DB) (osm_id : Int) : Except Err Way :=
  if ((db.ways.filter (fun r => r.osm_id == osm_id)).mergeSort
      (fun a b => a.position ≤ b.position)).isEmpty then
    .error (.keyError "Way" osm_id)
  else
    .ok { osm_id := osm_id,
          nodes := ((db.ways.filter (fun r => r.osm_id == osm_id)).mergeSort
            (fun a b => a.position ≤ b.position)).map (fun r => r.noderef),
          tags := get_tags db.way_tags osm_id }

/-- `OSM_SQLite.relation`: `select * from relations where osm_id=?`;
`KeyError` when no rows; members built row by row, tags attached. -/
def DB.relation (db : DB) (osm_id : Int) : Except Err Relation :=
  if (db.relations.filter (fun r => r.osm_id == osm_id)).isEmpty then
    .error (.keyError "Relation" osm_id)
  else
    .ok { osm_id := osm_id,
          members := (db.relations.filter (fun r => r.osm_id == osm_id)).map
            (fun r => ⟨r.member, r.memberref, r.role⟩),
          tags := get_tags db.relation_tags osm_id }

/-- Left-to-right effectful map over `Except`, the shape of every
`for`-loop-with-`yield` in the source that can raise. -/
def mapME {α β : Type} (f : α → Except Err β) : List α → Except Err (List β)
  | [] => .ok []
  | a :: l => do
    let b ← f a
    let bs ← mapME f l
    .ok (b :: bs)

/-- `OSM_SQLite._search_tags`: `select osm_id from <table> where key=?
and value=?`, yielding matching ids in table order. -/
def search_tags (table : List TagRow) (key value : String) : List Int :=
  (table.filter (fun r => r.key == key && r.value == value)).map (fun r => r.osm_id)

/-- `OSM_SQLite._search_all_tags`: seed on the first wanted pair, then
re-filter each candidate id by checking every wanted pair against its
full tag map (`key in tags and tags[key] == value`).  An empty wanted
map raises `ValueError`. -/
def search_all_tags (table : List TagRow) (wanted : List (String × String)) :
    Except Err (List Int) :=
  match wanted with
  | [] => .error .valueError
  | (k0, v0) :: _ =>
    .ok ((search_tags table k0 v0).filter
      (fun osm_id =>
        wanted.all (fun kv => (get_tags table osm_id).lookup kv.1 == some kv.2)))

/-- `OSM_SQLite.search_node_tags`: materialize each matching id via
`self.node`. -/
def DB.search_node_tags (db : DB) (wanted : List (String × String)) :
    Except Err (List Node) := do
  let ids ← search_all_tags db.node_tags wanted
  mapME db.node ids

/-- `OSM_SQLite.search_way_tags`: materialize each matching id via
`self.way`. -/
def DB.search_way_tags (db : DB) (wanted : List (String × String)) :
    Except Err (List Way) := do
  let ids ← search_all_tags db.way_tags wanted
  mapME db.way ids

/-- `OSM_SQLite.search_relation_tags`: materialize each matching id via
`self.relation`. -/
def DB.search_relation_tags (db : DB) (wanted : List (String × String)) :
    Except Err (List Relation) := do
  let ids ← search_all_tags db.relation_tags wanted
  mapME db.relation ids


/-- A small concrete store in the shape produced by `convert` on the
inline test document of `tests/test_sqlite.py` (trimmed). -/
def sampleDB : DB :=
  { nodes := [⟨1, 12000000, 11000000⟩, ⟨2, 14000000, 13000000⟩],
    node_tags := [⟨1, "name", "bob"⟩, ⟨2, "name", "dave"⟩],
    ways := [⟨5, 0, 1⟩, ⟨5, 1, 2⟩],
    way_tags := [⟨5, "name", "bob"⟩, ⟨5, "type", "v1"⟩],
    relations := [⟨7, "node", 1, "bob"⟩],
    relation_tags := [⟨7, "name", "bob"⟩] }


/-- `richobjs.RichWay`: a way augmented with the full node records. -/
structure RichWay where
  osm_id : Int
  nodes : List Int
  tags : List (String × String)
  complete_nodes : List Node
deriving DecidableEq, Repr

/-- `RichWay.__init__` with `_validate_ids`: the reference list and the
resolved node list must have the same length and agree on ids index by
index, otherwise `ValueError`. -/
def mkRichWay (way : Way) (provide_full_nodes : List Node) : Except Err RichWay :=
  if way.nodes.length ≠ provide_full_nodes.length then .error .valueError
  else if (way.nodes.zip provide_full_nodes).any (fun p => p.1 != p.2.osm_id)
  then .error .valueError
  else .ok { osm_id := way.osm_id, nodes := way.nodes, tags := way.tags,
             complete_nodes := provide_full_nodes }

/-- `OSM_SQLite.complete_way` applied to a `Way` instance: the provider
resolves every node reference through `self.node`, then the `RichWay`
is built and validated. -/
def DB.complete_way (db : DB) (way : Way) : Except Err RichWay := do
  let full ← mapME db.node way.nodes
  mkRichWay way full

/-- `OSM_SQLite.complete_way` applied to an id: look the way up first. -/
def DB.complete_way_id (db : DB) (osm_id : Int) : Except Err RichWay := do
  let way ← db.way osm_id
  db.complete_way way

/-- Flush step of the `OSM_SQLite.ways` generator: attach the tags of
the current way before yielding it. -/
def flush_way (way_tags : List TagRow) (w : Way) : Way :=
  { w with tags := w.tags ++ get_tags way_tags w.osm_id }

/-- The `while True` loop of `OSM_SQLite.ways`: `way` is the current
accumulator (`None` before the first row).  When the fetch returns no
row, the loop flushes the current way — dereferencing `way.osm_id`,
an `AttributeError` when `way` is still `None`. -/
def ways_loop (way_tags : List TagRow) : Option Way → List WayRow → Except Err (List Way)
  | none, [] => .error .attributeError
  | some w, [] => .ok [flush_way way_tags w]
  | none, r :: rest =>
    ways_loop way_tags (some { osm_id := r.osm_id, nodes := [r.noderef], tags := [] }) rest
  | some w, r :: rest =>
    if w.osm_id ≠ r.osm_id then do
      let more ← ways_loop way_tags
        (some { osm_id := r.osm_id, nodes := [r.noderef], tags := [] }) rest
      .ok (flush_way way_tags w :: more)
    else
      ways_loop way_tags (some { w with nodes := w.nodes ++ [r.noderef] }) rest

/-- `OSM_SQLite.ways`: `select osm_id, noderef from ways order by
osm_id, position` driven through the generator loop. -/
def DB.ways_iter (db : DB) : Except Err (List Way) :=
  ways_loop db.way_tags none
    (db.ways.mergeSort (fun a b =>
      a.osm_id < b.osm_id || (a.osm_id == b.osm_id && a.position ≤ b.position)))

/-- Flush step of the `OSM_SQLite.relations` generator. -/
def flush_relation (relation_tags : List TagRow) (rel : Relation) : Relation :=
  { rel with tags := rel.tags ++ get_tags relation_tags rel.osm_id }

/-- The `while True` loop of `OSM_SQLite.relations`; same shape as
`ways_loop`, accumulating members instead of node refs. -/
def relations_loop (relation_tags : List TagRow) :
    Option Relation → List RelationRow → Except Err (List Relation)
  | none, [] => .error .attributeError
  | some rel, [] => .ok [flush_relation relation_tags rel]
  | none, r :: rest =>
    relations_loop relation_tags
      (some { osm_id := r.osm_id, members := [⟨r.member, r.memberref, r.role⟩],
              tags := [] }) rest
  | some rel, r :: rest =>
    if rel.osm_id ≠ r.osm_id then do
      let more ← relations_loop relation_tags
        (some { osm_id := r.osm_id, members := [⟨r.member, r.memberref, r.role⟩],
                tags := [] }) rest
      .ok (flush_relation relation_tags rel :: more)
    else
      relations_loop relation_tags
        (some { rel with members := rel.members ++ [⟨r.member, r.memberref, r.role⟩] }) rest

/-- `OSM_SQLite.relations`: `select * from relations order by osm_id`
driven through the generator loop. -/
def DB.relations_iter (db : DB) : Except Err (List Relation) :=
  relations_loop db.relation_tags none
    (db.relations.mergeSort (fun a b => a.osm_id ≤ b.osm_id))

/-- A store with all six tables empty. -/
def emptyDB : DB :=
  { nodes := [], node_tags := [], ways := [], way_tags := [],
    relations := [], relation_tags := [] }

/-- `sqlite._node_ids_in_bb`: `select osm_id from nodes where longitude
>= ? and longitude <= ? and latitude >= ? and latitude <= ?` with the
box encoded through `_to_num`, collected into a set (`set()` is
modelled as a deduplicated list; set membership is list membership). -/
def node_ids_in_bb (db : DB) (minlon maxlon minlat maxlat : ℚ) : List Int :=
  ((db.nodes.filter (fun r =>
    decide (to_num minlon ≤ r.longitude) && decide (r.longitude ≤ to_num maxlon) &&
    decide (to_num minlat ≤ r.latitude) && decide (r.latitude ≤ to_num maxlat))).map
      (fun r => r.osm_id)).dedup

/-- One round of the `while len(search) > 0` loop of
`sqlite._chunk_in_request`, structurally recursive on an iteration
budget: every round removes at least one id from `search`, so a budget
of the initial length is never exhausted. -/
def chunk_in_request_go (q : List Int → List Int) : Nat → List Int → List Int
  | _, [] => []
  | 0, _ :: _ => []
  | fuel + 1, a :: search =>
    if (a :: search).length ≤ 10240 then q (a :: search)
    else q ((a :: search).take 10240) ∪
      chunk_in_request_go q fuel ((a :: search).drop 10240)

/-- `sqlite._chunk_in_request`: run the `in (...)` query on chunks of
at most 10240 ids and accumulate the result set (`out.update` is set
union). -/
def chunk_in_request (q : List Int → List Int) (search : List Int) : List Int :=
  chunk_in_request_go q search.length search

/-- `sqlite._ways_from_nodes`: `select osm_id from ways where noderef
in (...)`, chunked. -/
def ways_from_nodes (db : DB) (node_set : List Int) : List Int :=
  chunk_in_request
    (fun chunk =>
      (db.ways.filter (fun r => chunk.contains r.noderef)).map (fun r => r.osm_id))
    node_set

/-- `sqlite._all_nodes_from_ways`: `select noderef from ways where
osm_id in (...)`, chunked. -/
def all_nodes_from_ways (db : DB) (way_set : List Int) : List Int :=
  chunk_in_request
    (fun chunk =>
      (db.ways.filter (fun r => chunk.contains r.osm_id)).map (fun r => r.noderef))
    way_set

/-- The way-id set computed by `sqlite.extract`:
`valid_way_ids = _ways_from_nodes(db, valid_node_ids)`. -/
def extract_way_ids (db : DB) (minlon maxlon minlat maxlat : ℚ) : List Int :=
  ways_from_nodes db (node_ids_in_bb db minlon maxlon minlat maxlat)

/-- The node-id set computed by `sqlite.extract`:
`valid_node_ids | _all_nodes_from_ways(db, valid_way_ids)`. -/
def extract_node_ids (db : DB) (minlon maxlon minlat maxlat : ℚ) : List Int :=
  node_ids_in_bb db minlon maxlon minlat maxlat ∪
    all_nodes_from_ways db (extract_way_ids db minlon maxlon minlat maxlat)

/-- A fully resolved member of a rich relation: a plain node, a rich
way, or recursively a rich relation (`richobjs.RichRelation` flattened
into the `rel` constructor: the declared relation plus its resolved
member list). -/
inductive RichElem where
  | node (n : Node)
  | way (w : RichWay)
  | rel (r : Relation) (full_members : List RichElem)
deriving Repr

/-- The `osm_id` attribute of a resolved member. -/
def RichElem.elem_id : RichElem → Int
  | .node n => n.osm_id
  | .way w => w.osm_id
  | .rel r _ => r.osm_id

/-- The `name` attribute of a resolved member ("node"/"way"/"relation"). -/
def RichElem.elem_name : RichElem → String
  | .node _ => "node"
  | .way _ => "way"
  | .rel _ _ => "relation"

/-- `RichRelation.__init__` with `_validate_ids`: member declarations
and resolved members must agree in count, id and kind, else
`ValueError`. -/
def mkRichRelation (relation : Relation) (full : List RichElem) :
    Except Err RichElem :=
  if relation.members.length ≠ full.length then .error .valueError
  else if (relation.members.zip full).any
    (fun p => p.1.ref != p.2.elem_id || p.1.type != p.2.elem_name)
  then .error .valueError
  else .ok (.rel relation full)

mutual

/-- `OSM_SQLite.complete_relation`: look the relation up, resolve every
member recursively, then validate.  The `Nat` argument is the recursion
depth budget modelling the Python interpreter recursion limit: the
source carries no active-set and no cycle check, so self-referential
relations simply recurse until the budget is exhausted
(`RecursionError`). -/
def completeRelationGo (db : DB) (fuel : Nat) (osm_id : Int) :
    Except Err RichElem :=
  match fuel with
  | 0 => .error .recursionLimit
  | fuel + 1 => do
    let relation ← db.relation osm_id
    let full ← provideFullMembers db fuel relation.members
    mkRichRelation relation full
termination_by (fuel, 0)

/-- `provide_full_members` inside `complete_relation`: nodes resolve
via `self.node`, ways via `self.complete_way`, relations recursively
via `self.complete_relation`; members of any other type are silently
skipped by the generator. -/
def provideFullMembers (db : DB) (fuel : Nat) (ms : List Member) :
    Except Err (List RichElem) :=
  match ms with
  | [] => .ok []
  | m :: rest =>
    if m.type = "node" then do
      let n ← db.node m.ref
      let more ← provideFullMembers db fuel rest
      .ok (.node n :: more)
    else if m.type = "way" then do
      let w ← db.complete_way_id m.ref
      let more ← provideFullMembers db fuel rest
      .ok (.way w :: more)
    else if m.type = "relation" then do
      let r ← completeRelationGo db fuel m.ref
      let more ← provideFullMembers db fuel rest
      .ok (r :: more)
    else provideFullMembers db fuel rest
termination_by (fuel, ms.length + 1)

end

/-- A store holding exactly one relation, which contains itself as its
only member. -/
def cyclicDB : DB :=
  { nodes := [], node_tags := [], ways := [], way_tags := [],
    relations := [⟨1, "relation", 1, ""⟩], relation_tags := [] }

/-- A parsed timestamp (`datetime.datetime` restricted to the fields
the `%Y-%m-%dT%H:%M:%SZ` format carries). -/
structure DateTime where
  year : Nat
  month : Nat
  day : Nat
  hour : Nat
  minute : Nat
  second : Nat
deriving DecidableEq, Repr

/-- `detail.OSM`: the file header — format version, generator and the
optional parsed timestamp. -/
structure OSMRec where
  version : String
  generator : String
  timestamp : Option DateTime
deriving DecidableEq, Repr

/-- `detail.Bounds`: the bounding-box header record. -/
structure BoundsRec where
  min_latitude : ℚ
  max_latitude : ℚ
  min_longitude : ℚ
  max_longitude : ℚ
deriving DecidableEq, Repr

/-- The two header records yielded first by the `sqlite.extract`
generator: an `OSM` record with the source version and the generator
string suffixed `" / extract by OSMDigest"` (and no timestamp
attribute), and a `Bounds` record carrying the requested box. -/
def extract_header (osm : OSMRec) (minlon maxlon minlat maxlat : ℚ) :
    OSMRec × BoundsRec :=
  ({ version := osm.version,
     generator := osm.generator ++ " / extract by OSMDigest",
     timestamp := none },
   { min_latitude := minlat, max_latitude := maxlat,
     min_longitude := minlon, max_longitude := maxlon })

/-- The decimal digit characters, as produced by Python number
formatting. -/
def digitChar (n : Nat) : Char :=
  match n with
  | 0 => '0' | 1 => '1' | 2 => '2' | 3 => '3' | 4 => '4'
  | 5 => '5' | 6 => '6' | 7 => '7' | 8 => '8' | _ => '9'

/-- Decimal rendering of a natural number (most significant digit
first), as Python prints integers. -/
def natChars (n : Nat) : List Char :=
  if n < 10 then [digitChar n]
  else natChars (n / 10) ++ [digitChar (n % 10)]
termination_by n
decreasing_by
  exact Nat.div_lt_self (by omega) (by omega)

/-- Zero-padding to width 2, as in Python `str(datetime)`. -/
def pad2 (n : Nat) : List Char :=
  if n < 10 then '0' :: natChars n else natChars n

/-- Zero-padding to width 4 for the year field. -/
def pad4 (n : Nat) : List Char :=
  if n < 10 then '0' :: '0' :: '0' :: natChars n
  else if n < 100 then '0' :: '0' :: natChars n
  else if n < 1000 then '0' :: natChars n
  else natChars n

/-- The `YYYY-MM-DD` half of a formatted timestamp. -/
def datePart (dt : DateTime) : List Char :=
  pad4 dt.year ++ '-' :: pad2 dt.month ++ '-' :: pad2 dt.day

/-- The `HH:MM:SS` half of a formatted timestamp. -/
def timePart (dt : DateTime) : List Char :=
  pad2 dt.hour ++ ':' :: pad2 dt.minute ++ ':' :: pad2 dt.second

/-- Python `str(datetime(...))`: date and time separated by a space. -/
def pyDatetimeChars (dt : DateTime) : List Char :=
  datePart dt ++ ' ' :: timePart dt

/-- The ISO-8601 `timestamp` attribute `YYYY-MM-DDTHH:MM:SSZ`
(`detail._DT_FORMAT`). -/
def isoChars (dt : DateTime) : List Char :=
  datePart dt ++ 'T' :: timePart dt ++ ['Z']

/-- `_write_osm`: the `gentime` column stores `str(osm.timestamp)` —
the space-separated rendering, or the literal string `None`. -/
def write_gentime (ts : Option DateTime) : List Char :=
  match ts with
  | none => ['N', 'o', 'n', 'e']
  | some dt => pyDatetimeChars dt

/-- Split a character list at every occurrence of `sep` (Python
`str.split(sep)`; on the single-space strings written by
`_write_osm` this agrees with no-argument `str.split()`). -/
def splitOnChar (sep : Char) : List Char → List (List Char)
  | [] => [[]]
  | c :: rest =>
    match splitOnChar sep rest with
    | [] => [[]]
    | h :: t => if c = sep then [] :: h :: t else (c :: h) :: t

/-- The numeric value of one decimal digit character. -/
def charDigit? (c : Char) : Option Nat :=
  if 48 ≤ c.toNat ∧ c.toNat ≤ 57 then some (c.toNat - 48) else none

/-- Left-to-right accumulation of a decimal numeral. -/
def charsToNatGo (acc : Nat) : List Char → Option Nat
  | [] => some acc
  | c :: rest =>
    match charDigit? c with
    | none => none
    | some d => charsToNatGo (acc * 10 + d) rest

/-- Parse a non-empty all-digit character list as a natural number
(the numeric field coercion inside `strptime`). -/
def charsToNat? : List Char → Option Nat
  | [] => none
  | l => charsToNatGo 0 l

/-- `datetime.strptime(s, "%Y-%m-%dT%H:%M:%SZ")` on the shapes arising
here: split the date from the time at `T`, the date into three
`-`-separated numerals, require the trailing literal `Z`, and the time
into three `:`-separated numerals. -/
def strptimeDT (s : List Char) : Option DateTime :=
  match splitOnChar 'T' s with
  | [date, timez] =>
    match splitOnChar '-' date with
    | [y, mo, d] =>
      if timez.getLast? = some 'Z' then
        match splitOnChar ':' timez.dropLast with
        | [h, mi, sec] => do
          let y2 ← charsToNat? y
          let mo2 ← charsToNat? mo
          let d2 ← charsToNat? d
          let h2 ← charsToNat? h
          let mi2 ← charsToNat? mi
          let s2 ← charsToNat? sec
          some ⟨y2, mo2, d2, h2, mi2, s2⟩
        | _ => none
      else none
    | _ => none
  | _ => none

/-- The timestamp-attribute half of `OSM_SQLite._read_osm`: the
sentinel `None` yields no attribute; otherwise the column must split
into date and time at the space and is reassembled as
`"{}T{}Z".format(d, t)` (a failing unpack is a `ValueError`). -/
def read_gentime_attr (gentime : List Char) : Except Err (Option (List Char)) :=
  if gentime = ['N', 'o', 'n', 'e'] then .ok none
  else
    match splitOnChar ' ' gentime with
    | [d, t] => .ok (some (d ++ 'T' :: t ++ ['Z']))
    | _ => .error .valueError

/-- `_read_osm` followed by the `detail.OSM` constructor: parse the
reassembled attribute with `strptime` (failure is the constructor's
`ValueError`). -/
def read_gentime (gentime : List Char) : Except Err (Option DateTime) := do
  let attr ← read_gentime_attr gentime
  match attr with
  | none => .ok none
  | some a =>
    match strptimeDT a with
    | some dt => .ok (some dt)
    | none => .error .valueError

/-- `richobjs._centroid`: accumulate the coordinate sums and the count,
then divide.  An empty generator leaves `n = 0` and the division
raises `ZeroDivisionError`. -/
def centroid_points (pts : List (ℚ × ℚ)) : Except Err (ℚ × ℚ) :=
  if pts.length = 0 then .error .zeroDivision
  else .ok ((pts.map Prod.fst).sum / (pts.length : ℚ),
            (pts.map Prod.snd).sum / (pts.length : ℚ))

/-- `RichWay.centroid`: the centroid of the complete nodes'
`(longitude, latitude)` pairs. -/
def RichWay.centroid (w : RichWay) : Except Err (ℚ × ℚ) :=
  centroid_points (w.complete_nodes.map (fun nd => (nd.longitude, nd.latitude)))

mutual

/-- The generator inside `RichRelation.centroid`: node members yield
their own coordinates, way and relation members yield their
(recursively computed) centroids. -/
def memberPoints : List RichElem → Except Err (List (ℚ × ℚ))
  | [] => .ok []
  | .node n :: rest => do
    let t ← memberPoints rest
    .ok ((n.longitude, n.latitude) :: t)
  | .way w :: rest => do
    let c ← RichWay.centroid w
    let t ← memberPoints rest
    .ok (c :: t)
  | .rel _ full :: rest => do
    let c ← relCentroid full
    let t ← memberPoints rest
    .ok (c :: t)
termination_by l => sizeOf l

/-- `RichRelation.centroid`: the centroid of the member points. -/
def relCentroid (full : List RichElem) : Except Err (ℚ × ℚ) := do
  let pts ← memberPoints full
  centroid_points pts
termination_by sizeOf full + 1

end

/-- The arithmetic mean of a list of rationals (the spec's notion of
centroid coordinate). -/
def arithMean (l : List ℚ) : ℚ :=
  l.sum / (l.length : ℚ)

/-- Python dictionary assignment `d[k] = v` on an insertion-ordered
association list: overwrite in place, else append. -/
def dictInsert : List (String × String) → String → String → List (String × String)
  | [], k, v => [(k, v)]
  | (k2, v2) :: rest, k, v =>
    if k2 = k then (k, v) :: rest else (k2, v2) :: dictInsert rest k v

/-- Python `int()` on a decimal string (optional leading minus). -/
def pyIntParse? (s : List Char) : Option Int :=
  match s with
  | '-' :: rest => (charsToNat? rest).map (fun n => -(n : Int))
  | _ => (charsToNat? s).map (fun n => (n : Int))

/-- Python `float()` on an unsigned decimal literal: integer part,
optionally a fractional part after one dot. -/
def pyFloatNonneg? (s : List Char) : Option ℚ :=
  match splitOnChar '.' s with
  | [ip] => (charsToNat? ip).map (fun n => (n : ℚ))
  | [ip, fp] => do
    let n ← charsToNat? ip
    let f ← charsToNat? fp
    some ((n : ℚ) + (f : ℚ) / (10 : ℚ) ^ fp.length)
  | _ => none

/-- Python `float()` on the simple decimal literals OSM coordinates
use (optional sign, digits, optional fraction). -/
def pyFloat? (s : List Char) : Option ℚ :=
  match s with
  | '-' :: rest => (pyFloatNonneg? rest).map Neg.neg
  | _ => pyFloatNonneg? s

/-- `digest.Node.__init__` (with `BaseOSMElement.__init__`): coerce
`id` with `int()`, then `lat` and `lon` with `float()`; a missing
attribute is a `KeyError`, a malformed number a `ValueError`.  The
`visible` attribute is never consulted. -/
def digest_node (attrs : List (String × String)) : Except Err Node :=
  match attrs.lookup "id" with
  | none => .error (.missingAttr "id")
  | some ids =>
    match pyIntParse? ids.data with
    | none => .error .valueError
    | some osm_id =>
      match attrs.lookup "lat" with
      | none => .error (.missingAttr "lat")
      | some lats =>
        match pyFloat? lats.data with
        | none => .error .valueError
        | some lat =>
          match attrs.lookup "lon" with
          | none => .error (.missingAttr "lon")
          | some lons =>
            match pyFloat? lons.data with
            | none => .error .valueError
            | some lon =>
              .ok { osm_id := osm_id, longitude := lon, latitude := lat,
                    tags := [] }

/-- `digest.Way.__init__`: only the `id` coercion; `visible` is never
consulted. -/
def digest_way (attrs : List (String × String)) : Except Err Way :=
  match attrs.lookup "id" with
  | none => .error (.missingAttr "id")
  | some ids =>
    match pyIntParse? ids.data with
    | none => .error .valueError
    | some osm_id => .ok { osm_id := osm_id, nodes := [], tags := [] }

/-- `digest.Relation.__init__`: only the `id` coercion; `visible` is
never consulted. -/
def digest_relation (attrs : List (String × String)) : Except Err Relation :=
  match attrs.lookup "id" with
  | none => .error (.missingAttr "id")
  | some ids =>
    match pyIntParse? ids.data with
    | none => .error .valueError
    | some osm_id => .ok { osm_id := osm_id, members := [], tags := [] }

/-- A child XML element of a primitive: tag name and attributes (the
OSM grammar gives them no children of their own). -/
def ChildEl : Type := String × List (String × String)

/-- `digest._add_children` specialised to a node object: `tag` children
populate the tag dictionary; `nd` and `member` children hit attributes
a `Node` does not have (`AttributeError`); anything else is the
`ValueError` branch. -/
def add_children_node (node : Node) : List ChildEl → Except Err Node
  | [] => .ok node
  | (tag, cattrs) :: rest =>
    if tag = "tag" then
      match cattrs.lookup "k", cattrs.lookup "v" with
      | some k, some v =>
        add_children_node { node with tags := dictInsert node.tags k v } rest
      | _, _ => .error (.missingAttr "k")
    else if tag = "nd" then .error .attributeError
    else if tag = "member" then .error .attributeError
    else .error .valueError

/-- `digest._add_children` specialised to a way object. -/
def add_children_way (way : Way) : List ChildEl → Except Err Way
  | [] => .ok way
  | (tag, cattrs) :: rest =>
    if tag = "tag" then
      match cattrs.lookup "k", cattrs.lookup "v" with
      | some k, some v =>
        add_children_way { way with tags := dictInsert way.tags k v } rest
      | _, _ => .error (.missingAttr "k")
    else if tag = "nd" then
      match cattrs.lookup "ref" with
      | none => .error (.missingAttr "ref")
      | some refs =>
        match pyIntParse? refs.data with
        | none => .error .valueError
        | some ref => add_children_way { way with nodes := way.nodes ++ [ref] } rest
    else if tag = "member" then .error .attributeError
    else .error .valueError

/-- `digest._add_children` specialised to a relation object. -/
def add_children_relation (rel : Relation) : List ChildEl → Except Err Relation
  | [] => .ok rel
  | (tag, cattrs) :: rest =>
    if tag = "tag" then
      match cattrs.lookup "k", cattrs.lookup "v" with
      | some k, some v =>
        add_children_relation { rel with tags := dictInsert rel.tags k v } rest
      | _, _ => .error (.missingAttr "k")
    else if tag = "nd" then .error .attributeError
    else if tag = "member" then
      match cattrs.lookup "type", cattrs.lookup "ref", cattrs.lookup "role" with
      | some ty, some refs, some role =>
        match pyIntParse? refs.data with
        | none => .error .valueError
        | some ref =>
          add_children_relation
            { rel with members := rel.members ++ [⟨ty, ref, role⟩] } rest
      | _, _, _ => .error (.missingAttr "ref")
    else .error .valueError

/-- `detail.Bounds`: reject unexpected attributes, then coerce the four
box attributes with `float()`. -/
def detail_bounds (attrs : List (String × String)) : Except Err BoundsRec :=
  if attrs.any (fun kv =>
      !(["minlat", "minlon", "maxlat", "maxlon"].contains kv.1)) then
    .error .valueError
  else
    match attrs.lookup "minlat", attrs.lookup "minlon",
        attrs.lookup "maxlat", attrs.lookup "maxlon" with
    | some a, some b, some c, some d =>
      match pyFloat? a.data, pyFloat? b.data, pyFloat? c.data, pyFloat? d.data with
      | some minlat, some minlon, some maxlat, some maxlon =>
        .ok { min_latitude := minlat, max_latitude := maxlat,
              min_longitude := minlon, max_longitude := maxlon }
      | _, _, _, _ => .error .valueError
    | _, _, _, _ => .error (.missingAttr "minlat")

/-- `detail.OSM`: reject unexpected attributes, keep `version` and
`generator` as strings, parse the optional `timestamp` with
`strptime`. -/
def detail_osm (attrs : List (String × String)) : Except Err OSMRec :=
  if attrs.any (fun kv =>
      !(["version", "generator", "timestamp"].contains kv.1)) then
    .error .valueError
  else
    match attrs.lookup "version", attrs.lookup "generator" with
    | some v, some g =>
      match attrs.lookup "timestamp" with
      | none => .ok { version := v, generator := g, timestamp := none }
      | some ts =>
        match strptimeDT ts.data with
        | some dt => .ok { version := v, generator := g, timestamp := some dt }
        | none => .error .valueError
    | _, _ => .error (.missingAttr "version")

/-- A record of the typed stream produced by the digest parse. -/
inductive OSMRecord where
  | osm (o : OSMRec)
  | bounds (b : BoundsRec)
  | node (n : Node)
  | way (w : Way)
  | relation (r : Relation)
deriving DecidableEq, Repr

/-- A top-level element of the document: tag, attributes, children. -/
def ElemSrc : Type := String × List (String × String) × List ChildEl

/-- The per-element dispatch of `digest._parse_file_etree`: `bounds`,
`node`, `way` and `relation` end events build and yield a record; any
other element is passed over silently.  No branch consults the
`visible` attribute. -/
def parse_elements : List ElemSrc → Except Err (List OSMRecord)
  | [] => .ok []
  | (tag, attrs, children) :: rest =>
    if tag = "bounds" then do
      let b ← detail_bounds attrs
      let more ← parse_elements rest
      .ok (.bounds b :: more)
    else if tag = "node" then do
      let n0 ← digest_node attrs
      let n ← add_children_node n0 children
      let more ← parse_elements rest
      .ok (.node n :: more)
    else if tag = "way" then do
      let w0 ← digest_way attrs
      let w ← add_children_way w0 children
      let more ← parse_elements rest
      .ok (.way w :: more)
    else if tag = "relation" then do
      let r0 ← digest_relation attrs
      let r ← add_children_relation r0 children
      let more ← parse_elements rest
      .ok (.relation r :: more)
    else parse_elements rest

/-- `digest._parse_file_etree` over a two-level document (the OSM
grammar): check the root tag, yield the header record, then the
per-element records. -/
def parse_file_etree (root_tag : String) (root_attrs : List (String × String))
    (elements : List ElemSrc) : Except Err (List OSMRecord) := do
  if root_tag = "osm" then
    let osm ← detail_osm root_attrs
    let rest ← parse_elements elements
    .ok (.osm osm :: rest)
  else .error .valueError

/-- The strict validator's metadata record
(`detail.OSMElement.metadata` plus the id). -/
structure OSMMetadata where
  osm_id : Int
  user : String
  uid : Int
  version : Int
  changeset : Int
  timestamp : DateTime
deriving DecidableEq, Repr

/-- `detail.OSMElement.__init__`: coerce `id`, build the metadata
dictionary (`user` defaulting to the empty string, `uid` to 0), then
reject a `visible` attribute different from `"true"`.  Every failure
surfaces as `ValueError`; the visible rejection is kept as the
distinguished `nonVisible` constructor (the `ValueError` wrapping
`Exception("Element not visible!")`). -/
def detail_element (attrs : List (String × String)) : Except Err OSMMetadata :=
  match attrs.lookup "id" with
  | none => .error .valueError
  | some ids =>
    match pyIntParse? ids.data with
    | none => .error .valueError
    | some osm_id =>
      let user := (attrs.lookup "user").getD ""
      match (attrs.lookup "uid").getD "0" |>.data |> pyIntParse? with
      | none => .error .valueError
      | some uid =>
        match attrs.lookup "version" with
        | none => .error .valueError
        | some vs =>
          match pyIntParse? vs.data with
          | none => .error .valueError
          | some version =>
            match attrs.lookup "changeset" with
            | none => .error .valueError
            | some cs =>
              match pyIntParse? cs.data with
              | none => .error .valueError
              | some changeset =>
                match attrs.lookup "timestamp" with
                | none => .error .valueError
                | some ts =>
                  match strptimeDT ts.data with
                  | none => .error .valueError
                  | some timestamp =>
                    match attrs.lookup "visible" with
                    | some vis =>
                      if vis = "true" then
                        .ok ⟨osm_id, user, uid, version, changeset, timestamp⟩
                      else .error .nonVisible
                    | none =>
                      .ok ⟨osm_id, user, uid, version, changeset, timestamp⟩

/-- The attribute map of a node element carrying a `visible`
attribute, with the metadata the strict validator requires. -/
def nodeAttrs (vis : String) : List (String × String) :=
  [("id", "1"), ("lat", "1"), ("lon", "2"), ("visible", vis),
   ("version", "1"), ("changeset", "1"),
   ("timestamp", "2008-09-21T21:37:45Z")]

/-! ## Theorems -/

theorem to_num_nonneg_eq_floor (f : ℚ) (h : 0 ≤ f) :
    to_num f = ⌊f * 10 ^ 7 + 1 / 2⌋ := by
  unfold to_num pyInt
  rw [if_pos h]
  split_ifs with h2
  · rfl
  · exact absurd (by positivity) h2

theorem to_num_neg_eq_ceil (f : ℚ) (h : f < 0) :
    to_num f = ⌈f * 10 ^ 7 - 1 / 2⌉ := by
  unfold to_num pyInt
  rw [if_neg (not_le.mpr h)]
  split_ifs with h2
  · nlinarith
  · rfl

/-- C2: the coordinate codec encodes a degree value `f` as
`⌊f·10⁷ + 0.5⌋` when `f` is non-negative and `⌈f·10⁷ − 0.5⌉` when `f`
is negative, and decodes integer `i` as `i/10⁷`; in particular
`encode(−0.0000001) = −1`, `encode(0.0000001) = 1`, and
`decode(encode(12.2482632)) = 12.2482632`. -/
theorem coordinate_codec_correct :
    (∀ f : ℚ, 0 ≤ f → to_num f = ⌊f * 10 ^ 7 + 1 / 2⌋) ∧
    (∀ f : ℚ, f < 0 → to_num f = ⌈f * 10 ^ 7 - 1 / 2⌉) ∧
    (∀ i : ℤ, to_float i = (i : ℚ) / 10 ^ 7) ∧
    to_num (-0.0000001) = -1 ∧
    to_num 0.0000001 = 1 ∧
    to_float (to_num 12.2482632) = 12.2482632 := by
  refine ⟨to_num_nonneg_eq_floor, to_num_neg_eq_ceil, fun i => rfl, ?_, ?_, ?_⟩
  · rw [to_num_neg_eq_ceil _ (by norm_num), Int.ceil_eq_iff]
    norm_num
  · rw [to_num_nonneg_eq_floor _ (by norm_num), Int.floor_eq_iff]
    norm_num
  · rw [to_num_nonneg_eq_floor _ (by norm_num),
      show ⌊(12.2482632 : ℚ) * 10 ^ 7 + 1 / 2⌋ = 122482632 by
        rw [Int.floor_eq_iff]; norm_num]
    norm_num [to_float]

/-- Witness for C2: the floor characterization applied at the concrete
input `5/2`. -/
theorem coordinate_codec_correct_witness :
    to_num (5 / 2 : ℚ) = ⌊(5 / 2 : ℚ) * 10 ^ 7 + 1 / 2⌋ :=
  coordinate_codec_correct.1 (5 / 2 : ℚ) (by norm_num)

theorem mapME_ok_of_forall {α β : Type} {f : α → Except Err β}
    {P : α → β → Prop} :
    ∀ {l : List α}, (∀ a ∈ l, ∃ b, f a = .ok b ∧ P a b) →
      ∃ bs, mapME f l = .ok bs ∧ List.Forall₂ P l bs := by
  intro l
  induction l with
  | nil => exact fun _ => ⟨[], rfl, List.Forall₂.nil⟩
  | cons a l ih =>
    intro h
    obtain ⟨b, hb, hPb⟩ := h a (List.mem_cons_self a l)
    obtain ⟨bs, hbs, hP⟩ := ih (fun x hx => h x (List.mem_cons_of_mem a hx))
    refine ⟨b :: bs, ?_, List.Forall₂.cons hPb hP⟩
    show (do
      let b ← f a
      let bs ← mapME f l
      Except.ok (b :: bs)) = Except.ok (b :: bs)
    rw [hb, hbs]
    rfl

theorem mapME_ok_forall₂ {α β : Type} {f : α → Except Err β} :
    ∀ {l : List α} {bs : List β}, mapME f l = .ok bs →
      List.Forall₂ (fun a b => f a = .ok b) l bs := by
  intro l
  induction l with
  | nil => intro bs h; cases h; exact List.Forall₂.nil
  | cons a l ih =>
    intro bs h
    unfold mapME at h
    cases hfa : f a with
    | error e => rw [hfa] at h; exact Except.noConfusion h
    | ok b =>
      rw [hfa] at h
      cases hrest : mapME f l with
      | error e => rw [hrest] at h; exact Except.noConfusion h
      | ok bs2 =>
        rw [hrest] at h
        have h2 : Except.ok (ε := Err) (b :: bs2) = Except.ok bs := h
        cases h2
        exact List.Forall₂.cons hfa (ih hrest)

theorem mem_search_tags {table : List TagRow} {k v : String} {id : Int} :
    id ∈ search_tags table k v ↔
      ∃ r ∈ table, r.osm_id = id ∧ r.key = k ∧ r.value = v := by
  simp only [search_tags, List.mem_map, List.mem_filter, Bool.and_eq_true,
    beq_iff_eq]
  tauto

theorem mem_get_tags {table : List TagRow} {id : Int} {k v : String} :
    (k, v) ∈ get_tags table id ↔
      ∃ r ∈ table, r.osm_id = id ∧ r.key = k ∧ r.value = v := by
  simp only [get_tags, List.mem_map, List.mem_filter, beq_iff_eq,
    Prod.mk.injEq]
  constructor
  · rintro ⟨r, ⟨hr, hid⟩, hk, hv⟩
    exact ⟨r, hr, hid, hk, hv⟩
  · rintro ⟨r, hr, hid, hk, hv⟩
    exact ⟨r, ⟨hr, hid⟩, hk, hv⟩

theorem lookup_some_mem {l : List (String × String)} {k v : String}
    (h : l.lookup k = some v) : (k, v) ∈ l := by
  induction l with
  | nil => simp at h
  | cons p l ih =>
    obtain ⟨k0, v0⟩ := p
    rw [List.lookup_cons] at h
    by_cases hk : (k == k0) = true
    · rw [hk] at h
      simp only [Option.some.injEq] at h
      subst h
      exact (beq_iff_eq.mp hk) ▸ List.mem_cons_self _ _
    · rw [Bool.not_eq_true] at hk
      rw [hk] at h
      exact List.mem_cons_of_mem _ (ih h)

theorem nodup_search_tags {table : List TagRow} {k v : String}
    (h : (table.map (fun r => (r.osm_id, r.key))).Nodup) :
    (search_tags table k v).Nodup := by
  unfold search_tags
  induction table with
  | nil => simp
  | cons r table ih =>
    simp only [List.map_cons, List.nodup_cons] at h
    obtain ⟨hr, htable⟩ := h
    rw [List.filter_cons]
    split_ifs with hcond
    · rw [List.map_cons, List.nodup_cons]
      refine ⟨?_, ih htable⟩
      intro hmem
      simp only [List.mem_map, List.mem_filter, Bool.and_eq_true, beq_iff_eq] at hmem
      obtain ⟨r2, ⟨hr2, hk2, hv2⟩, hid⟩ := hmem
      simp only [Bool.and_eq_true, beq_iff_eq] at hcond
      apply hr
      rw [List.mem_map]
      exact ⟨r2, hr2, by rw [hid, hk2, hcond.1]⟩
    · exact ih htable

theorem forall₂_exists_of_mem {α β : Type} {R : α → β → Prop}
    {l1 : List α} {l2 : List β} (h : List.Forall₂ R l1 l2) {a : α}
    (ha : a ∈ l1) : ∃ b ∈ l2, R a b := by
  induction h with
  | nil => cases ha
  | cons hR _ ih =>
    rcases List.mem_cons.mp ha with rfl | ha2
    · exact ⟨_, List.mem_cons_self _ _, hR⟩
    · obtain ⟨b, hb, hRb⟩ := ih ha2
      exact ⟨b, List.mem_cons_of_mem _ hb, hRb⟩

theorem forall₂_map_eq {α β : Type} {g : β → α} :
    ∀ {l1 : List α} {l2 : List β},
      List.Forall₂ (fun a b => g b = a) l1 l2 → l2.map g = l1 := by
  intro l1 l2 h
  induction h with
  | nil => rfl
  | cons hR _ ih => simp [ih, hR]

theorem forall₂_exists_of_mem_right {α β : Type} {R : α → β → Prop}
    {l1 : List α} {l2 : List β} (h : List.Forall₂ R l1 l2) {b : β}
    (hb : b ∈ l2) : ∃ a ∈ l1, R a b := by
  induction h with
  | nil => cases hb
  | cons hR _ ih =>
    rcases List.mem_cons.mp hb with rfl | hb2
    · exact ⟨_, List.mem_cons_self _ _, hR⟩
    · obtain ⟨a, ha, hRa⟩ := ih hb2
      exact ⟨a, List.mem_cons_of_mem _ ha, hRa⟩

theorem search_all_tags_spec {table : List TagRow}
    {wanted : List (String × String)} (hw : wanted ≠ [])
    (hpairs : (table.map (fun r => (r.osm_id, r.key))).Nodup) :
    ∃ ids, search_all_tags table wanted = .ok ids ∧ ids.Nodup ∧
      ∀ id, id ∈ ids ↔
        ∀ kv ∈ wanted, (get_tags table id).lookup kv.1 = some kv.2 := by
  obtain ⟨⟨k0, v0⟩, rest, rfl⟩ : ∃ p rest, wanted = p :: rest := by
    cases wanted with
    | nil => exact absurd rfl hw
    | cons p rest => exact ⟨p, rest, rfl⟩
  refine ⟨_, rfl, List.Nodup.filter _ (nodup_search_tags hpairs), fun id => ?_⟩
  rw [List.mem_filter]
  constructor
  · rintro ⟨-, hall⟩ kv hkv
    have := (List.all_eq_true.mp hall) kv hkv
    exact beq_iff_eq.mp this
  · intro hall
    refine ⟨?_, List.all_eq_true.mpr (fun kv hkv => beq_iff_eq.mpr (hall kv hkv))⟩
    have h0 := hall (k0, v0) (List.mem_cons_self _ _)
    obtain ⟨r, hr, hid, hk, hv⟩ := mem_get_tags.mp (lookup_some_mem h0)
    exact mem_search_tags.mpr ⟨r, hr, hid, hk, hv⟩

theorem node_ok_of_exists {db : DB} {id : Int}
    (h : ∃ r ∈ db.nodes, r.osm_id = id) :
    ∃ n, db.node id = .ok n ∧ n.osm_id = id ∧
      n.tags = get_tags db.node_tags id := by
  unfold DB.node
  cases hf : db.nodes.find? (fun r => r.osm_id == id) with
  | none =>
    obtain ⟨r, hr, hid⟩ := h
    have := List.find?_eq_none.mp hf r hr
    simp [hid] at this
  | some r =>
    have hpred := List.find?_some hf
    have hid : r.osm_id = id := beq_iff_eq.mp hpred
    exact ⟨_, rfl, hid, by rw [hid]⟩

theorem way_ok_of_exists {db : DB} {id : Int}
    (h : ∃ r ∈ db.ways, r.osm_id = id) :
    ∃ w, db.way id = .ok w ∧ w.osm_id = id ∧
      w.tags = get_tags db.way_tags id := by
  unfold DB.way
  obtain ⟨r, hr, hid⟩ := h
  have hmem : r ∈ db.ways.filter (fun r => r.osm_id == id) :=
    List.mem_filter.mpr ⟨hr, by simp [hid]⟩
  have hmem2 : r ∈ (db.ways.filter (fun r => r.osm_id == id)).mergeSort
      (fun a b => a.position ≤ b.position) :=
    (List.mergeSort_perm _ _).mem_iff.mpr hmem
  cases hrows : (db.ways.filter (fun r => r.osm_id == id)).mergeSort
      (fun a b => a.position ≤ b.position) with
  | nil => rw [hrows] at hmem2; cases hmem2
  | cons a l => exact ⟨_, rfl, rfl, rfl⟩

theorem relation_ok_of_exists {db : DB} {id : Int}
    (h : ∃ r ∈ db.relations, r.osm_id = id) :
    ∃ rel, db.relation id = .ok rel ∧ rel.osm_id = id ∧
      rel.tags = get_tags db.relation_tags id := by
  unfold DB.relation
  obtain ⟨r, hr, hid⟩ := h
  have hmem : r ∈ db.relations.filter (fun r => r.osm_id == id) :=
    List.mem_filter.mpr ⟨hr, by simp [hid]⟩
  cases hrows : db.relations.filter (fun r => r.osm_id == id) with
  | nil => rw [hrows] at hmem; cases hmem
  | cons a l => exact ⟨_, rfl, rfl, rfl⟩

/-- The shared skeleton of `search_node_tags`, `search_way_tags` and
`search_relation_tags`: search the tag table, then materialize each id
with the per-kind fetch function. -/
theorem search_materialize_spec {γ : Type} {table : List TagRow}
    {f : Int → Except Err γ} {g : γ → Int}
    {t : γ → List (String × String)}
    {wanted : List (String × String)} (hw : wanted ≠ [])
    (hpairs : (table.map (fun r => (r.osm_id, r.key))).Nodup)
    (hf : ∀ id, (∃ r ∈ table, r.osm_id = id) →
      ∃ x, f id = .ok x ∧ g x = id ∧ t x = get_tags table id) :
    ∃ ids result, search_all_tags table wanted = .ok ids ∧
      mapME f ids = .ok result ∧
      (result.map g).Nodup ∧
      (∀ x ∈ result, t x = get_tags table (g x) ∧
        ∀ kv ∈ wanted, (t x).lookup kv.1 = some kv.2) ∧
      (∀ id, (∀ kv ∈ wanted, (get_tags table id).lookup kv.1 = some kv.2) →
        ∃ x ∈ result, g x = id) := by
  obtain ⟨ids, hids, hnodup, hchar⟩ := search_all_tags_spec hw hpairs
  have hrowex : ∀ id ∈ ids, ∃ r ∈ table, r.osm_id = id := by
    intro id hid
    obtain ⟨⟨k0, v0⟩, rest, hwanted⟩ : ∃ p rest, wanted = p :: rest := by
      cases wanted with
      | nil => exact absurd rfl hw
      | cons p rest => exact ⟨p, rest, rfl⟩
    have h0 := (hchar id).mp hid (k0, v0) (hwanted ▸ List.mem_cons_self _ _)
    obtain ⟨r, hr, hrid, -, -⟩ := mem_get_tags.mp (lookup_some_mem h0)
    exact ⟨r, hr, hrid⟩
  obtain ⟨result, hres, hfa⟩ := mapME_ok_of_forall
    (P := fun id x => g x = id ∧ t x = get_tags table id)
    (fun id hid => by
      obtain ⟨x, hx, hxid, hxtags⟩ := hf id (hrowex id hid)
      exact ⟨x, hx, hxid, hxtags⟩)
  have hmap : result.map g = ids :=
    forall₂_map_eq (hfa.imp (fun _ _ hab => hab.1))
  refine ⟨ids, result, hids, hres, hmap ▸ hnodup, ?_, ?_⟩
  · intro x hx
    obtain ⟨id, hid, hxid, hxtags⟩ := forall₂_exists_of_mem_right hfa hx
    have hcond := (hchar id).mp hid
    refine ⟨by rw [hxid, hxtags], fun kv hkv => ?_⟩
    rw [hxtags]
    exact hcond kv hkv
  · intro id hcond
    have hid : id ∈ ids := (hchar id).mpr hcond
    obtain ⟨x, hx, hxid, -⟩ := forall₂_exists_of_mem hfa hid
    exact ⟨x, hx, hxid⟩


/-- C1: for every store and every non-empty tag predicate map,
`search_node_tags` (and its way/relation counterparts) returns exactly
the primitives whose tag map contains every `(key, value)` pair of the
predicate: each returned primitive carries all queried pairs, and every
stored primitive carrying all queried pairs is returned exactly once.
Hypotheses: tag keys are unique within one primitive (spec data-model
invariant 3) and every tag row belongs to a stored primitive (as
arranged by `convert`). -/
theorem search_tags_conjunctive
    (db : DB) (wanted : List (String × String)) (hw : wanted ≠ [])
    (hnp : (db.node_tags.map (fun r => (r.osm_id, r.key))).Nodup)
    (hwp : (db.way_tags.map (fun r => (r.osm_id, r.key))).Nodup)
    (hrp : (db.relation_tags.map (fun r => (r.osm_id, r.key))).Nodup)
    (hnref : ∀ r ∈ db.node_tags, ∃ nr ∈ db.nodes, nr.osm_id = r.osm_id)
    (hwref : ∀ r ∈ db.way_tags, ∃ wr ∈ db.ways, wr.osm_id = r.osm_id)
    (hrref : ∀ r ∈ db.relation_tags, ∃ rr ∈ db.relations, rr.osm_id = r.osm_id) :
    (∃ result, db.search_node_tags wanted = .ok result ∧
      (result.map Node.osm_id).Nodup ∧
      (∀ n ∈ result, n.tags = get_tags db.node_tags n.osm_id ∧
        ∀ kv ∈ wanted, n.tags.lookup kv.1 = some kv.2) ∧
      (∀ id, (∀ kv ∈ wanted, (get_tags db.node_tags id).lookup kv.1 = some kv.2) →
        ∃ n ∈ result, n.osm_id = id)) ∧
    (∃ result, db.search_way_tags wanted = .ok result ∧
      (result.map Way.osm_id).Nodup ∧
      (∀ w ∈ result, w.tags = get_tags db.way_tags w.osm_id ∧
        ∀ kv ∈ wanted, w.tags.lookup kv.1 = some kv.2) ∧
      (∀ id, (∀ kv ∈ wanted, (get_tags db.way_tags id).lookup kv.1 = some kv.2) →
        ∃ w ∈ result, w.osm_id = id)) ∧
    (∃ result, db.search_relation_tags wanted = .ok result ∧
      (result.map Relation.osm_id).Nodup ∧
      (∀ rel ∈ result, rel.tags = get_tags db.relation_tags rel.osm_id ∧
        ∀ kv ∈ wanted, rel.tags.lookup kv.1 = some kv.2) ∧
      (∀ id, (∀ kv ∈ wanted, (get_tags db.relation_tags id).lookup kv.1 = some kv.2) →
        ∃ rel ∈ result, rel.osm_id = id)) := by
  refine ⟨?_, ?_, ?_⟩
  · obtain ⟨ids, result, hids, hres, hnd, hfwd, hcmp⟩ :=
      search_materialize_spec (g := Node.osm_id) (t := Node.tags) hw hnp
        (fun id hex => by
          obtain ⟨r, hr, hrid⟩ := hex
          obtain ⟨nr, hnr, hnrid⟩ := hnref r hr
          exact node_ok_of_exists ⟨nr, hnr, by rw [hnrid, hrid]⟩)
    refine ⟨result, ?_, hnd, hfwd, hcmp⟩
    unfold DB.search_node_tags
    rw [hids]
    exact hres
  · obtain ⟨ids, result, hids, hres, hnd, hfwd, hcmp⟩ :=
      search_materialize_spec (g := Way.osm_id) (t := Way.tags) hw hwp
        (fun id hex => by
          obtain ⟨r, hr, hrid⟩ := hex
          obtain ⟨wr, hwr, hwrid⟩ := hwref r hr
          exact way_ok_of_exists ⟨wr, hwr, by rw [hwrid, hrid]⟩)
    refine ⟨result, ?_, hnd, hfwd, hcmp⟩
    unfold DB.search_way_tags
    rw [hids]
    exact hres
  · obtain ⟨ids, result, hids, hres, hnd, hfwd, hcmp⟩ :=
      search_materialize_spec (g := Relation.osm_id) (t := Relation.tags) hw hrp
        (fun id hex => by
          obtain ⟨r, hr, hrid⟩ := hex
          obtain ⟨rr, hrr, hrrid⟩ := hrref r hr
          exact relation_ok_of_exists ⟨rr, hrr, by rw [hrrid, hrid]⟩)
    refine ⟨result, ?_, hnd, hfwd, hcmp⟩
    unfold DB.search_relation_tags
    rw [hids]
    exact hres

/-- Witness for C1: the theorem applied to the concrete `sampleDB` with
the predicate `{name: bob}`. -/
theorem search_tags_conjunctive_witness :
    ∃ result, sampleDB.search_node_tags [("name", "bob")] = .ok result ∧
      (result.map Node.osm_id).Nodup := by
  obtain ⟨⟨result, h1, h2, -, -⟩, -, -⟩ :=
    search_tags_conjunctive sampleDB [("name", "bob")] (by decide)
      (by decide) (by decide) (by decide) (by decide) (by decide) (by decide)
  exact ⟨result, h1, h2⟩

/-- C3: for every way `w` whose referenced nodes are all stored,
`complete_way(w)` succeeds with a `complete_nodes` list of the same
length as `w.nodes` whose entries are full `Node` records with `osm_id`
equal to the referenced id at the same index, in the original order,
and `complete_way(w).nodes` equals `w.nodes`; and any length or id
mismatch between the reference list and the resolved nodes raises the
inconsistent-reference `ValueError`. -/
theorem complete_way_correct
    (db : DB) (way : Way)
    (href : ∀ ref ∈ way.nodes, ∃ r ∈ db.nodes, r.osm_id = ref) :
    (∃ rw, db.complete_way way = .ok rw ∧
      rw.complete_nodes.length = way.nodes.length ∧
      List.Forall₂ (fun ref n => n.osm_id = ref) way.nodes rw.complete_nodes ∧
      rw.nodes = way.nodes) ∧
    (∀ full : List Node,
      (way.nodes.length ≠ full.length ∨
        ∃ p ∈ way.nodes.zip full, p.1 ≠ p.2.osm_id) →
      mkRichWay way full = .error .valueError) := by
  constructor
  · obtain ⟨full, hfull, hfa⟩ := mapME_ok_of_forall
      (P := fun (ref : Int) (n : Node) => n.osm_id = ref)
      (fun ref hr => by
        obtain ⟨n, hn, hnid, -⟩ := node_ok_of_exists (href ref hr)
        exact ⟨n, hn, hnid⟩)
    have hlen : way.nodes.length = full.length := hfa.length_eq
    have hany : (way.nodes.zip full).any (fun p => p.1 != p.2.osm_id) = false := by
      rw [List.any_eq_false]
      intro p hp
      have := List.forall₂_zip hfa (a := p.1) (b := p.2) (by simpa using hp)
      simp [this]
    refine ⟨{ osm_id := way.osm_id, nodes := way.nodes, tags := way.tags,
              complete_nodes := full }, ?_, hlen.symm, hfa, rfl⟩
    show (do
      let full ← mapME db.node way.nodes
      mkRichWay way full) = _
    rw [hfull]
    show mkRichWay way full = _
    unfold mkRichWay
    rw [if_neg (fun hne => hne hlen), hany]
    rfl
  · intro full hbad
    unfold mkRichWay
    by_cases hlen : way.nodes.length = full.length
    · rcases hbad with hne | ⟨p, hp, hne⟩
      · exact absurd hlen hne
      · rw [if_neg (fun h2 => h2 hlen)]
        have hany : (way.nodes.zip full).any (fun p => p.1 != p.2.osm_id) = true := by
          rw [List.any_eq_true]
          exact ⟨p, hp, by simpa using hne⟩
        rw [hany]
        rfl
    · rw [if_pos hlen]

/-- Witness for C3: the theorem applied to way 5 of `sampleDB`. -/
theorem complete_way_correct_witness :
    ∃ rw, sampleDB.complete_way ⟨5, [1, 2], [("name", "bob")]⟩ = .ok rw ∧
      rw.complete_nodes.length = 2 := by
  obtain ⟨⟨rw, h1, h2, -, -⟩, -⟩ :=
    complete_way_correct sampleDB ⟨5, [1, 2], [("name", "bob")]⟩ (by decide)
  exact ⟨rw, h1, h2⟩

/-- C10: on a store whose ways table is empty, the first pull of the
`ways()` generator dereferences the still-`None` current-way object
(`AttributeError`) instead of yielding an empty sequence; likewise for
`relations()` on a store with no relations. -/
theorem empty_iteration_raises
    (db : DB) :
    (db.ways = [] → db.ways_iter = .error .attributeError) ∧
    (db.relations = [] → db.relations_iter = .error .attributeError) := by
  constructor
  · intro h
    unfold DB.ways_iter
    rw [h, List.mergeSort_nil]
    rfl
  · intro h
    unfold DB.relations_iter
    rw [h, List.mergeSort_nil]
    rfl

/-- Witness for C10: the theorem applied to the all-empty store. -/
theorem empty_iteration_raises_witness :
    emptyDB.ways_iter = .error .attributeError ∧
    emptyDB.relations_iter = .error .attributeError :=
  ⟨(empty_iteration_raises emptyDB).1 rfl, (empty_iteration_raises emptyDB).2 rfl⟩

theorem mem_chunk_in_request_go {α : Type} (rows : List α) (fld g : α → Int) :
    ∀ (fuel : Nat) (search : List Int), search.length ≤ fuel → ∀ x,
      (x ∈ chunk_in_request_go
        (fun chunk => (rows.filter (fun r => chunk.contains (fld r))).map g)
        fuel search) ↔
      ∃ r ∈ rows, fld r ∈ search ∧ g r = x := by
  intro fuel
  induction fuel with
  | zero =>
    intro search hlen x
    have hnil : search = [] := List.eq_nil_of_length_eq_zero (Nat.le_zero.mp hlen)
    subst hnil
    simp [chunk_in_request_go]
  | succ fuel ih =>
    intro search hlen x
    cases search with
    | nil => simp [chunk_in_request_go]
    | cons a search =>
      show x ∈ (if (a :: search).length ≤ 10240 then _ else _) ↔ _
      by_cases h1 : (a :: search).length ≤ 10240
      · rw [if_pos h1]
        simp only [List.mem_map, List.mem_filter, List.elem_eq_mem,
          decide_eq_true_iff]
        tauto
      · rw [if_neg h1, List.mem_union_iff]
        have hdlen : ((a :: search).drop 10240).length ≤ fuel := by
          simp only [List.length_drop]
          simp only [List.length_cons] at hlen ⊢
          omega
        rw [ih ((a :: search).drop 10240) hdlen x]
        have hsplit : ∀ b : Int, b ∈ (a :: search) ↔
            b ∈ (a :: search).take 10240 ∨ b ∈ (a :: search).drop 10240 := by
          intro b
          conv_lhs => rw [← List.take_append_drop 10240 (a :: search)]
          exact List.mem_append
        simp only [List.mem_map, List.mem_filter, List.elem_eq_mem,
          decide_eq_true_iff]
        constructor
        · rintro (⟨r, ⟨hr, hmem⟩, hg⟩ | ⟨r, hr, hmem, hg⟩)
          · exact ⟨r, hr, (hsplit (fld r)).mpr (Or.inl hmem), hg⟩
          · exact ⟨r, hr, (hsplit (fld r)).mpr (Or.inr hmem), hg⟩
        · rintro ⟨r, hr, hmem, hg⟩
          rcases (hsplit (fld r)).mp hmem with h | h
          · exact Or.inl ⟨r, ⟨hr, h⟩, hg⟩
          · exact Or.inr ⟨r, hr, h, hg⟩

theorem mem_ways_from_nodes {db : DB} {S : List Int} {x : Int} :
    x ∈ ways_from_nodes db S ↔
      ∃ r ∈ db.ways, r.noderef ∈ S ∧ r.osm_id = x :=
  mem_chunk_in_request_go db.ways (fun r => r.noderef) (fun r => r.osm_id)
    S.length S le_rfl x

theorem mem_all_nodes_from_ways {db : DB} {S : List Int} {x : Int} :
    x ∈ all_nodes_from_ways db S ↔
      ∃ r ∈ db.ways, r.osm_id ∈ S ∧ r.noderef = x :=
  mem_chunk_in_request_go db.ways (fun r => r.osm_id) (fun r => r.noderef)
    S.length S le_rfl x

/-- C4: the sub-region extract is closed under way-completion — every
way emitted by `extract` has every one of its referenced node ids also
in the emitted node-id set, and the emitted node-id set is exactly the
union of the in-box node ids with all node ids referenced by any
emitted way. -/
theorem extract_closed_under_way_completion
    (db : DB) (minlon maxlon minlat maxlat : ℚ) :
    (∀ wid ∈ extract_way_ids db minlon maxlon minlat maxlat,
      ∀ w, db.way wid = .ok w →
        ∀ ref ∈ w.nodes, ref ∈ extract_node_ids db minlon maxlon minlat maxlat) ∧
    (∀ id, id ∈ extract_node_ids db minlon maxlon minlat maxlat ↔
      (id ∈ node_ids_in_bb db minlon maxlon minlat maxlat ∨
        ∃ r ∈ db.ways, r.osm_id ∈ extract_way_ids db minlon maxlon minlat maxlat ∧
          r.noderef = id)) := by
  constructor
  · intro wid hwid w hw ref href
    unfold DB.way at hw
    split at hw
    · exact Except.noConfusion hw
    · have hok : Except.ok (ε := Err)
          { osm_id := wid,
            nodes := ((db.ways.filter (fun r => r.osm_id == wid)).mergeSort
              (fun a b => a.position ≤ b.position)).map (fun r => r.noderef),
            tags := get_tags db.way_tags wid } = Except.ok w := hw
      cases hok
      simp only [List.mem_map] at href
      obtain ⟨row, hrow, hrowref⟩ := href
      have hrow2 : row ∈ db.ways.filter (fun r => r.osm_id == wid) :=
        (List.mergeSort_perm _ _).subset hrow
      rw [List.mem_filter] at hrow2
      obtain ⟨hrowways, hrowid⟩ := hrow2
      have hrowid2 : row.osm_id = wid := beq_iff_eq.mp hrowid
      unfold extract_node_ids
      rw [List.mem_union_iff]
      right
      exact mem_all_nodes_from_ways.mpr ⟨row, hrowways, hrowid2 ▸ hwid, hrowref⟩
  · intro id
    unfold extract_node_ids
    rw [List.mem_union_iff, mem_all_nodes_from_ways]

/-- The store of end-to-end scenario D: five nodes at longitudes
1.1 … 1.9 (all at latitude 1.0) and a way 5 referencing nodes 1, 2. -/
def extractDB : DB :=
  { nodes := [⟨1, 11000000, 10000000⟩, ⟨2, 13000000, 10000000⟩,
              ⟨3, 15000000, 10000000⟩, ⟨4, 17000000, 10000000⟩,
              ⟨5, 19000000, 10000000⟩],
    node_tags := [],
    ways := [⟨5, 0, 1⟩, ⟨5, 1, 2⟩],
    way_tags := [],
    relations := [], relation_tags := [] }

/-- Witness for C4: scenario D — in `extractDB` with box longitude
`[1, 1.15]`, node 2 is pulled into the emitted node set through way 5
even though it lies outside the box. -/
theorem extract_closed_under_way_completion_witness :
    (2 : Int) ∈ extract_node_ids extractDB 1 (23 / 20) 0 2 := by
  have e1 : to_num 1 = 10000000 := by
    rw [to_num_nonneg_eq_floor _ (by norm_num), Int.floor_eq_iff]
    norm_num
  have e2 : to_num (23 / 20) = 11500000 := by
    rw [to_num_nonneg_eq_floor _ (by norm_num), Int.floor_eq_iff]
    norm_num
  have e3 : to_num 0 = 0 := by
    rw [to_num_nonneg_eq_floor _ (by norm_num), Int.floor_eq_iff]
    norm_num
  have e4 : to_num 2 = 20000000 := by
    rw [to_num_nonneg_eq_floor _ (by norm_num), Int.floor_eq_iff]
    norm_num
  have h := (extract_closed_under_way_completion extractDB 1 (23 / 20) 0 2).2 2
  apply h.mpr
  right
  refine ⟨⟨5, 1, 2⟩, by decide, ?_, rfl⟩
  unfold extract_way_ids
  apply mem_ways_from_nodes.mpr
  refine ⟨⟨5, 0, 1⟩, by decide, ?_, rfl⟩
  simp only [node_ids_in_bb, e1, e2, e3, e4]
  decide

theorem bind_ok_eq {α β : Type} (a : α) (f : α → Except Err β) :
    (do let x ← Except.ok a; f x) = f a := rfl

theorem bind_error_eq {α β : Type} (e : Err) (f : α → Except Err β) :
    (do let x ← (Except.error e : Except Err α); f x) = .error e := rfl

theorem complete_relation_self_loop (db : DB) (osm_id : Int) (role : String)
    (restRows : List RelationRow)
    (h : db.relations.filter (fun r => r.osm_id == osm_id) =
      ⟨osm_id, "relation", osm_id, role⟩ :: restRows) :
    ∀ fuel, completeRelationGo db fuel osm_id = .error .recursionLimit := by
  intro fuel
  induction fuel with
  | zero => simp [completeRelationGo]
  | succ fuel ih =>
    have hrel : db.relation osm_id = .ok
        { osm_id := osm_id,
          members := ⟨"relation", osm_id, role⟩ ::
            restRows.map (fun r => ⟨r.member, r.memberref, r.role⟩),
          tags := get_tags db.relation_tags osm_id } := by
      unfold DB.relation
      rw [h]
      rfl
    have hprov : provideFullMembers db fuel
        (⟨"relation", osm_id, role⟩ ::
          restRows.map (fun r => (⟨r.member, r.memberref, r.role⟩ : Member))) =
        .error .recursionLimit := by
      simp only [provideFullMembers]
      rw [if_pos trivial, ih, bind_error_eq]
      rw [if_neg (by decide), if_neg (by decide)]
    simp only [completeRelationGo, hrel, bind_ok_eq]
    rw [hprov, bind_error_eq]

/-- C5 (amended): `complete_relation` performs no cycle detection — the
source carries no active-set of ids, so resolving a relation whose
first member references the relation itself recurses until the depth
budget is exhausted and fails with the recursion-limit error (Python
`RecursionError`); the `CyclicRelation` error named by the spec is
never produced. -/
theorem complete_relation_cycle_unbounded
    (db : DB) (osm_id : Int) (role : String) (restRows : List RelationRow)
    (h : db.relations.filter (fun r => r.osm_id == osm_id) =
      ⟨osm_id, "relation", osm_id, role⟩ :: restRows) (fuel : Nat) :
    completeRelationGo db fuel osm_id = .error .recursionLimit ∧
    completeRelationGo db fuel osm_id ≠ .error (.cyclicRelation osm_id) := by
  have h1 := complete_relation_self_loop db osm_id role restRows h fuel
  refine ⟨h1, ?_⟩
  rw [h1]
  simp

/-- Witness for C5: the amended theorem applied to the one-relation
self-referential store with a budget of 100. -/
theorem complete_relation_cycle_unbounded_witness :
    completeRelationGo cyclicDB 100 1 = .error .recursionLimit ∧
    completeRelationGo cyclicDB 100 1 ≠ .error (.cyclicRelation 1) :=
  complete_relation_cycle_unbounded cyclicDB 1 "" [] (by decide) 100

/-- Counterexample for C5 as stated: resolving the self-referential
relation 1 of `cyclicDB` does not raise `CyclicRelation(1)` — it
exhausts the recursion budget instead. -/
theorem complete_relation_cycle_counterexample :
    completeRelationGo cyclicDB 100 1 ≠ .error (.cyclicRelation 1) ∧
    completeRelationGo cyclicDB 100 1 = .error .recursionLimit := by
  have h1 := complete_relation_self_loop cyclicDB 1 "" [] (by decide) 100
  exact ⟨by rw [h1]; simp, h1⟩

theorem digitChar_digit (n : Nat) :
    48 ≤ (digitChar n).toNat ∧ (digitChar n).toNat ≤ 57 := by
  unfold digitChar
  split <;> decide

theorem charDigit?_digitChar {n : Nat} (h : n < 10) :
    charDigit? (digitChar n) = some n := by
  interval_cases n <;> decide

theorem natChars_ne_nil (n : Nat) : natChars n ≠ [] := by
  rw [natChars]
  split_ifs <;> simp

theorem natChars_digits (n : Nat) :
    ∀ c ∈ natChars n, 48 ≤ c.toNat ∧ c.toNat ≤ 57 := by
  induction n using Nat.strong_induction_on with
  | _ n ih =>
    rw [natChars]
    split_ifs with h
    · intro c hc
      rw [List.mem_singleton] at hc
      subst hc
      exact digitChar_digit n
    · intro c hc
      rcases List.mem_append.mp hc with h1 | h1
      · exact ih (n / 10) (Nat.div_lt_self (by omega) (by omega)) c h1
      · rw [List.mem_singleton] at h1
        subst h1
        exact digitChar_digit (n % 10)

theorem pad2_digits (n : Nat) :
    ∀ c ∈ pad2 n, 48 ≤ c.toNat ∧ c.toNat ≤ 57 := by
  unfold pad2
  split_ifs
  · intro c hc
    rcases List.mem_cons.mp hc with rfl | h1
    · decide
    · exact natChars_digits n c h1
  · exact natChars_digits n

theorem pad4_digits (n : Nat) :
    ∀ c ∈ pad4 n, 48 ≤ c.toNat ∧ c.toNat ≤ 57 := by
  unfold pad4
  split_ifs <;> intro c hc
  · rcases List.mem_cons.mp hc with rfl | hc; · decide
    rcases List.mem_cons.mp hc with rfl | hc; · decide
    rcases List.mem_cons.mp hc with rfl | hc; · decide
    exact natChars_digits n c hc
  · rcases List.mem_cons.mp hc with rfl | hc; · decide
    rcases List.mem_cons.mp hc with rfl | hc; · decide
    exact natChars_digits n c hc
  · rcases List.mem_cons.mp hc with rfl | hc; · decide
    exact natChars_digits n c hc
  · exact natChars_digits n c hc

theorem charsToNatGo_append (acc : Nat) (l1 l2 : List Char) :
    charsToNatGo acc (l1 ++ l2) =
      match charsToNatGo acc l1 with
      | none => none
      | some a => charsToNatGo a l2 := by
  induction l1 generalizing acc with
  | nil => rfl
  | cons c r ih =>
    show charsToNatGo acc (c :: (r ++ l2)) = _
    cases hd : charDigit? c with
    | none => simp [charsToNatGo, hd]
    | some d =>
      simp only [charsToNatGo, hd]
      exact ih (acc * 10 + d)

theorem charsToNatGo_natChars (n : Nat) :
    ∀ acc, charsToNatGo acc (natChars n) =
      some (acc * 10 ^ (natChars n).length + n) := by
  induction n using Nat.strong_induction_on with
  | _ n ih =>
    intro acc
    by_cases h : n < 10
    · have hrw : natChars n = [digitChar n] := by
        rw [natChars, if_pos h]
      rw [hrw]
      show charsToNatGo acc [digitChar n] = some (acc * 10 ^ 1 + n)
      unfold charsToNatGo
      rw [charDigit?_digitChar h]
      show some (acc * 10 + n) = some (acc * 10 ^ 1 + n)
      norm_num
    · have hrw : natChars n = natChars (n / 10) ++ [digitChar (n % 10)] := by
        rw [natChars, if_neg h]
      rw [hrw, charsToNatGo_append]
      rw [ih (n / 10) (Nat.div_lt_self (by omega) (by omega)) acc]
      show charsToNatGo (acc * 10 ^ (natChars (n / 10)).length + n / 10)
        [digitChar (n % 10)] = _
      unfold charsToNatGo
      rw [charDigit?_digitChar (Nat.mod_lt n (by omega))]
      show some ((acc * 10 ^ (natChars (n / 10)).length + n / 10) * 10 + n % 10) = _
      congr 1
      have hmod := Nat.div_add_mod n 10
      calc (acc * 10 ^ (natChars (n / 10)).length + n / 10) * 10 + n % 10
          = acc * (10 ^ (natChars (n / 10)).length * 10) +
              (10 * (n / 10) + n % 10) := by ring
        _ = acc * 10 ^ ((natChars (n / 10)).length + 1) + n := by
              rw [hmod, pow_succ]
        _ = acc * 10 ^ (natChars (n / 10) ++ [digitChar (n % 10)]).length + n := by
              rw [List.length_append, List.length_singleton]

theorem charsToNatGo_cons {c : Char} {d : Nat} (h : charDigit? c = some d)
    (acc : Nat) (l : List Char) :
    charsToNatGo acc (c :: l) = charsToNatGo (acc * 10 + d) l := by
  show (match charDigit? c with
    | none => none
    | some d => charsToNatGo (acc * 10 + d) l) = charsToNatGo (acc * 10 + d) l
  rw [h]

theorem charsToNat?_natChars (n : Nat) : charsToNat? (natChars n) = some n := by
  have hne := natChars_ne_nil n
  obtain ⟨c, l, hcl⟩ := List.exists_cons_of_ne_nil hne
  rw [hcl]
  show charsToNatGo 0 (c :: l) = some n
  rw [← hcl, charsToNatGo_natChars n 0]
  norm_num

theorem charsToNat?_pad2 (n : Nat) : charsToNat? (pad2 n) = some n := by
  have hz : charDigit? '0' = some 0 := by decide
  unfold pad2
  split_ifs with h
  · show charsToNatGo 0 ('0' :: natChars n) = some n
    rw [charsToNatGo_cons hz, show (0 * 10 + 0 : Nat) = 0 from rfl,
      charsToNatGo_natChars n 0]
    norm_num
  · exact charsToNat?_natChars n

theorem charsToNat?_pad4 (n : Nat) : charsToNat? (pad4 n) = some n := by
  have hz : charDigit? '0' = some 0 := by decide
  have hacc : (0 * 10 + 0 : Nat) = 0 := rfl
  unfold pad4
  split_ifs with h1 h2 h3
  · show charsToNatGo 0 ('0' :: '0' :: '0' :: natChars n) = some n
    rw [charsToNatGo_cons hz, hacc, charsToNatGo_cons hz, hacc,
      charsToNatGo_cons hz, hacc, charsToNatGo_natChars n 0]
    norm_num
  · show charsToNatGo 0 ('0' :: '0' :: natChars n) = some n
    rw [charsToNatGo_cons hz, hacc, charsToNatGo_cons hz, hacc,
      charsToNatGo_natChars n 0]
    norm_num
  · show charsToNatGo 0 ('0' :: natChars n) = some n
    rw [charsToNatGo_cons hz, hacc, charsToNatGo_natChars n 0]
    norm_num
  · exact charsToNat?_natChars n

theorem splitOnChar_cons (sep c : Char) (rest : List Char) :
    splitOnChar sep (c :: rest) =
      match splitOnChar sep rest with
      | [] => [[]]
      | h :: t => if c = sep then [] :: h :: t else (c :: h) :: t := rfl

theorem splitOnChar_ne_nil (sep : Char) (l : List Char) :
    splitOnChar sep l ≠ [] := by
  induction l with
  | nil => simp [splitOnChar]
  | cons c r ih =>
    rw [splitOnChar_cons]
    cases hs : splitOnChar sep r with
    | nil => exact absurd hs ih
    | cons h t => split_ifs <;> simp

theorem splitOnChar_not_mem {sep : Char} :
    ∀ {l : List Char}, sep ∉ l → splitOnChar sep l = [l] := by
  intro l
  induction l with
  | nil => intro h; rfl
  | cons c r ih =>
    intro h
    have hc : ¬ c = sep := fun hh => h (hh ▸ List.mem_cons_self c r)
    have hr : sep ∉ r := fun hh => h (List.mem_cons_of_mem c hh)
    rw [splitOnChar_cons, ih hr]
    simp [hc]

theorem splitOnChar_append {sep : Char} :
    ∀ {l1 l2 : List Char}, sep ∉ l1 →
      splitOnChar sep (l1 ++ sep :: l2) = l1 :: splitOnChar sep l2 := by
  intro l1
  induction l1 with
  | nil =>
    intro l2 _
    show splitOnChar sep (sep :: l2) = [] :: splitOnChar sep l2
    rw [splitOnChar_cons]
    cases hs : splitOnChar sep l2 with
    | nil => exact absurd hs (splitOnChar_ne_nil sep l2)
    | cons h t => simp
  | cons c r ih =>
    intro l2 hmem
    have hc : ¬ c = sep := fun hh => hmem (hh ▸ List.mem_cons_self c r)
    have hr : sep ∉ r := fun hh => hmem (List.mem_cons_of_mem c hh)
    show splitOnChar sep (c :: (r ++ sep :: l2)) = (c :: r) :: splitOnChar sep l2
    rw [splitOnChar_cons, ih hr]
    simp [hc]

theorem mem_datePart {dt : DateTime} {c : Char} (h : c ∈ datePart dt) :
    (48 ≤ c.toNat ∧ c.toNat ≤ 57) ∨ c = '-' := by
  unfold datePart at h
  rcases List.mem_append.mp h with h1 | h1
  · rcases List.mem_append.mp h1 with h2 | h2
    · exact Or.inl (pad4_digits _ c h2)
    · rcases List.mem_cons.mp h2 with rfl | h3
      · exact Or.inr rfl
      · exact Or.inl (pad2_digits _ c h3)
  · rcases List.mem_cons.mp h1 with rfl | h3
    · exact Or.inr rfl
    · exact Or.inl (pad2_digits _ c h3)

theorem mem_timePart {dt : DateTime} {c : Char} (h : c ∈ timePart dt) :
    (48 ≤ c.toNat ∧ c.toNat ≤ 57) ∨ c = ':' := by
  unfold timePart at h
  rcases List.mem_append.mp h with h1 | h1
  · rcases List.mem_append.mp h1 with h2 | h2
    · exact Or.inl (pad2_digits _ c h2)
    · rcases List.mem_cons.mp h2 with rfl | h3
      · exact Or.inr rfl
      · exact Or.inl (pad2_digits _ c h3)
  · rcases List.mem_cons.mp h1 with rfl | h3
    · exact Or.inr rfl
    · exact Or.inl (pad2_digits _ c h3)

theorem sep_not_mem_datePart (dt : DateTime) {s : Char}
    (h48 : s.toNat < 48 ∨ 57 < s.toNat) (hdash : s ≠ '-') :
    s ∉ datePart dt := by
  intro h
  rcases mem_datePart h with ⟨h1, h2⟩ | h1
  · omega
  · exact hdash h1

theorem sep_not_mem_timePart (dt : DateTime) {s : Char}
    (h48 : s.toNat < 48 ∨ 57 < s.toNat) (hcolon : s ≠ ':') :
    s ∉ timePart dt := by
  intro h
  rcases mem_timePart h with ⟨h1, h2⟩ | h1
  · omega
  · exact hcolon h1

theorem dash_not_mem_pad4 (n : Nat) : ('-' : Char) ∉ pad4 n := by
  intro h
  have := pad4_digits n _ h
  have h45 : ('-' : Char).toNat = 45 := rfl
  omega

theorem dash_not_mem_pad2 (n : Nat) : ('-' : Char) ∉ pad2 n := by
  intro h
  have := pad2_digits n _ h
  have h45 : ('-' : Char).toNat = 45 := rfl
  omega

theorem colon_not_mem_pad2 (n : Nat) : (':' : Char) ∉ pad2 n := by
  intro h
  have := pad2_digits n _ h
  have h58 : (':' : Char).toNat = 58 := rfl
  omega

theorem pad4_ne_nil (n : Nat) : pad4 n ≠ [] := by
  unfold pad4
  split_ifs <;> simp [natChars_ne_nil]

theorem pyDatetimeChars_ne_none (dt : DateTime) :
    pyDatetimeChars dt ≠ ['N', 'o', 'n', 'e'] := by
  intro hcontra
  obtain ⟨c, l, hcl⟩ := List.exists_cons_of_ne_nil (pad4_ne_nil dt.year)
  have hcmem : c ∈ pad4 dt.year := hcl ▸ List.mem_cons_self c l
  have hdig := pad4_digits dt.year c hcmem
  unfold pyDatetimeChars datePart at hcontra
  rw [hcl] at hcontra
  simp only [List.cons_append, List.append_assoc] at hcontra
  have hc : c = 'N' := (List.cons_eq_cons.mp hcontra).1
  subst hc
  have h78 : ('N' : Char).toNat = 78 := rfl
  omega

theorem splitOnChar_pyDatetimeChars (dt : DateTime) :
    splitOnChar ' ' (pyDatetimeChars dt) = [datePart dt, timePart dt] := by
  unfold pyDatetimeChars
  rw [splitOnChar_append
    (sep_not_mem_datePart dt (Or.inl (by decide)) (by decide))]
  rw [splitOnChar_not_mem
    (sep_not_mem_timePart dt (Or.inl (by decide)) (by decide))]

theorem strptimeDT_isoChars (dt : DateTime) :
    strptimeDT (isoChars dt) = some dt := by
  obtain ⟨y, mo, d, h, mi, s⟩ := dt
  have hT : splitOnChar 'T' (isoChars ⟨y, mo, d, h, mi, s⟩) =
      [datePart ⟨y, mo, d, h, mi, s⟩, timePart ⟨y, mo, d, h, mi, s⟩ ++ ['Z']] := by
    have hiso : isoChars ⟨y, mo, d, h, mi, s⟩ =
        datePart ⟨y, mo, d, h, mi, s⟩ ++
          'T' :: (timePart ⟨y, mo, d, h, mi, s⟩ ++ ['Z']) := by
      unfold isoChars
      rw [List.append_assoc, List.cons_append]
    rw [hiso]
    rw [splitOnChar_append
      (sep_not_mem_datePart _ (Or.inr (by decide)) (by decide))]
    rw [@splitOnChar_not_mem 'T' (timePart ⟨y, mo, d, h, mi, s⟩ ++ ['Z'])
      (fun hmem => by
        rcases List.mem_append.mp hmem with h1 | h1
        · exact sep_not_mem_timePart _ (Or.inr (by decide)) (by decide) h1
        · rw [List.mem_singleton] at h1
          exact absurd h1 (by decide))]
  have hdate : splitOnChar '-' (datePart ⟨y, mo, d, h, mi, s⟩) =
      [pad4 y, pad2 mo, pad2 d] := by
    have hd : datePart ⟨y, mo, d, h, mi, s⟩ =
        pad4 y ++ '-' :: (pad2 mo ++ '-' :: pad2 d) := by
      unfold datePart
      rw [List.append_assoc, List.cons_append]
    rw [hd, splitOnChar_append (dash_not_mem_pad4 y),
      splitOnChar_append (dash_not_mem_pad2 mo),
      splitOnChar_not_mem (dash_not_mem_pad2 d)]
  have htime : splitOnChar ':' (timePart ⟨y, mo, d, h, mi, s⟩) =
      [pad2 h, pad2 mi, pad2 s] := by
    have ht : timePart ⟨y, mo, d, h, mi, s⟩ =
        pad2 h ++ ':' :: (pad2 mi ++ ':' :: pad2 s) := by
      unfold timePart
      rw [List.append_assoc, List.cons_append]
    rw [ht, splitOnChar_append (colon_not_mem_pad2 h),
      splitOnChar_append (colon_not_mem_pad2 mi),
      splitOnChar_not_mem (colon_not_mem_pad2 s)]
  have hlast : (timePart ⟨y, mo, d, h, mi, s⟩ ++ ['Z']).getLast? = some 'Z' := by
    simp
  have hdrop : (timePart ⟨y, mo, d, h, mi, s⟩ ++ ['Z']).dropLast =
      timePart ⟨y, mo, d, h, mi, s⟩ := by
    simp
  simp [strptimeDT, hT, hdate, hlast, hdrop, htime, charsToNat?_pad4,
    charsToNat?_pad2]

theorem read_gentime_attr_write (dt : DateTime) :
    read_gentime_attr (write_gentime (some dt)) = .ok (some (isoChars dt)) := by
  show read_gentime_attr (pyDatetimeChars dt) = _
  unfold read_gentime_attr
  rw [if_neg (pyDatetimeChars_ne_none dt), splitOnChar_pyDatetimeChars]
  rfl

/-- C8: the persisted `osm.gentime` round-trips the header timestamp —
a timestamp written with the `T`/`Z` delimiters translated to space
separation is restored to the original ISO-8601 attribute (and parses
back to the same timestamp), an absent timestamp is stored as the
sentinel and read back as absent, and a stored literal `"None"` is read
back as absent. -/
theorem gentime_roundtrip (dt : DateTime) :
    read_gentime_attr (write_gentime (some dt)) = .ok (some (isoChars dt)) ∧
    read_gentime (write_gentime (some dt)) = .ok (some dt) ∧
    read_gentime (write_gentime none) = .ok none ∧
    read_gentime ['N', 'o', 'n', 'e'] = .ok none := by
  refine ⟨read_gentime_attr_write dt, ?_, rfl, rfl⟩
  unfold read_gentime
  rw [read_gentime_attr_write dt, bind_ok_eq]
  show (match strptimeDT (isoChars dt) with
    | some dt2 => Except.ok (some dt2)
    | none => Except.error Err.valueError) = Except.ok (some dt)
  rw [strptimeDT_isoChars]

/-- C7 (amended): the extract header carries the source generator
string suffixed `" / extract by OSMDigest"`, and the emitted `Bounds`
record matches the requested box exactly. -/
theorem extract_header_generator_bounds
    (osm : OSMRec) (minlon maxlon minlat maxlat : ℚ) :
    (extract_header osm minlon maxlon minlat maxlat).1.generator =
      osm.generator ++ " / extract by OSMDigest" ∧
    (extract_header osm minlon maxlon minlat maxlat).1.version = osm.version ∧
    (extract_header osm minlon maxlon minlat maxlat).2 =
      { min_latitude := minlat, max_latitude := maxlat,
        min_longitude := minlon, max_longitude := maxlon } :=
  ⟨rfl, rfl, rfl⟩

/-- Counterexample for C7 as stated: with source generator
`"CGImap 0.0.2"` the emitted generator string is not the source string
suffixed `" / extract"` — it neither equals `"CGImap 0.0.2 / extract"`
nor even ends with `" / extract"`. -/
theorem extract_header_generator_counterexample :
    (extract_header ⟨"0.6", "CGImap 0.0.2", none⟩ 1 2 3 4).1.generator ≠
      "CGImap 0.0.2" ++ " / extract" ∧
    (" / extract".data.isSuffixOf
      ((extract_header ⟨"0.6", "CGImap 0.0.2", none⟩ 1 2 3 4).1.generator).data)
      = false := by
  constructor
  · decide
  · decide

theorem memberPoints_ok_length :
    ∀ (full : List RichElem) (pts : List (ℚ × ℚ)),
      memberPoints full = .ok pts → pts.length = full.length := by
  intro full
  induction full with
  | nil =>
    intro pts h
    simp only [memberPoints] at h
    have h2 : Except.ok (ε := Err) ([] : List (ℚ × ℚ)) = .ok pts := h
    cases h2
    rfl
  | cons x rest ih =>
    intro pts h
    cases x with
    | node n =>
      simp only [memberPoints] at h
      cases ht : memberPoints rest with
      | error e => rw [ht] at h; exact Except.noConfusion h
      | ok t =>
        rw [ht] at h
        have h2 : Except.ok (ε := Err) ((n.longitude, n.latitude) :: t) = .ok pts := h
        cases h2
        simp [ih t ht]
    | way w =>
      simp only [memberPoints] at h
      cases hc : RichWay.centroid w with
      | error e => rw [hc] at h; exact Except.noConfusion h
      | ok c =>
        rw [hc] at h
        cases ht : memberPoints rest with
        | error e => rw [ht] at h; exact Except.noConfusion h
        | ok t =>
          rw [ht] at h
          have h2 : Except.ok (ε := Err) (c :: t) = .ok pts := h
          cases h2
          simp [ih t ht]
    | rel r full2 =>
      simp only [memberPoints] at h
      cases hc : relCentroid full2 with
      | error e => rw [hc] at h; exact Except.noConfusion h
      | ok c =>
        rw [hc] at h
        cases ht : memberPoints rest with
        | error e => rw [ht] at h; exact Except.noConfusion h
        | ok t =>
          rw [ht] at h
          have h2 : Except.ok (ε := Err) (c :: t) = .ok pts := h
          cases h2
          simp [ih t ht]

/-- C9 (amended): the centroid of a non-empty `RichWay` is the
arithmetic mean of its nodes' coordinates, the centroid of a non-empty
`RichRelation` is the mean of its members' centroids (nodes
contributing their own coordinates), and invoking centroid on an empty
collection raises the division-by-zero error (`ZeroDivisionError`) —
there is no dedicated `UndefinedCentroid` error in the code. -/
theorem centroid_mean_and_empty :
    (∀ w : RichWay, w.complete_nodes ≠ [] →
      w.centroid = .ok
        (arithMean (w.complete_nodes.map (fun nd => nd.longitude)),
         arithMean (w.complete_nodes.map (fun nd => nd.latitude)))) ∧
    (∀ (full : List RichElem) (pts : List (ℚ × ℚ)),
      memberPoints full = .ok pts → full ≠ [] →
      relCentroid full = .ok
        (arithMean (pts.map Prod.fst), arithMean (pts.map Prod.snd))) ∧
    (∀ w : RichWay, w.complete_nodes = [] →
      w.centroid = .error .zeroDivision) ∧
    relCentroid [] = .error .zeroDivision := by
  have hpts : ∀ (pts : List (ℚ × ℚ)), pts ≠ [] →
      centroid_points pts = .ok
        (arithMean (pts.map Prod.fst), arithMean (pts.map Prod.snd)) := by
    intro pts hne
    unfold centroid_points arithMean
    rw [if_neg (fun h0 => hne (List.length_eq_zero.mp h0))]
    simp [List.length_map]
  refine ⟨?_, ?_, ?_, ?_⟩
  · intro w hne
    unfold RichWay.centroid
    rw [hpts _ (fun h0 => hne (List.map_eq_nil_iff.mp h0))]
    simp only [List.map_map]
    rfl
  · intro full pts hmem hne
    simp only [relCentroid]
    rw [hmem, bind_ok_eq]
    have hlen := memberPoints_ok_length full pts hmem
    refine hpts pts (fun h0 => hne ?_)
    subst h0
    exact List.length_eq_zero.mp hlen.symm
  · intro w hnil
    unfold RichWay.centroid
    rw [hnil]
    rfl
  · simp only [relCentroid, memberPoints]
    rfl

/-- Witness for C9: the theorem applied to a concrete two-node rich
way. -/
theorem centroid_mean_and_empty_witness :
    RichWay.centroid
      ⟨5, [1, 2], [], [⟨1, 11 / 10, 6 / 5, []⟩, ⟨2, 13 / 10, 7 / 5, []⟩]⟩ =
      .ok (arithMean [11 / 10, 13 / 10], arithMean [6 / 5, 7 / 5]) := by
  have h := centroid_mean_and_empty.1
    ⟨5, [1, 2], [], [⟨1, 11 / 10, 6 / 5, []⟩, ⟨2, 13 / 10, 7 / 5, []⟩]⟩
    (by decide)
  exact h

/-- Counterexample for C9 as stated: the centroid of an empty rich way
is the `ZeroDivisionError`, not an `UndefinedCentroid` error. -/
theorem centroid_empty_counterexample :
    RichWay.centroid ⟨1, [], [], []⟩ = .error .zeroDivision ∧
    RichWay.centroid ⟨1, [], [], []⟩ ≠ .error .undefinedCentroid := by
  constructor
  · rfl
  · intro h
    have h2 : Err.zeroDivision = Err.undefinedCentroid := by
      have h3 : Except.error (α := ℚ × ℚ) Err.zeroDivision =
          .error .undefinedCentroid := h
      exact (Except.error.injEq _ _).mp h3
    exact Err.noConfusion h2

/-- C6 (amended): for an element carrying a `visible` attribute that is
not `"true"`, the persistence parse path (`digest.parse`, the etree
loop feeding `convert`) ignores the attribute entirely and emits the
element into the record stream, while the strict validator
(`detail.OSMElement`) rejects it with the non-visible `ValueError`. -/
theorem visible_ignored_by_digest_rejected_by_detail
    (vis : String) (hvis : vis ≠ "true") :
    parse_elements [("node", nodeAttrs vis, [])] =
      .ok [.node ⟨1, 2, 1, []⟩] ∧
    detail_element (nodeAttrs vis) = .error .nonVisible := by
  constructor
  · rfl
  · have hstep : detail_element (nodeAttrs vis) =
        if vis = "true" then .ok ⟨1, "", 0, 1, 1, ⟨2008, 9, 21, 21, 37, 45⟩⟩
        else .error .nonVisible := rfl
    rw [hstep, if_neg hvis]

/-- Witness for C6: the amended theorem applied at `visible="false"`. -/
theorem visible_ignored_witness :
    parse_elements [("node", nodeAttrs "false", [])] =
      .ok [.node ⟨1, 2, 1, []⟩] ∧
    detail_element (nodeAttrs "false") = .error .nonVisible :=
  visible_ignored_by_digest_rejected_by_detail "false" (by decide)

/-- Counterexample for C6 as stated: with `visible="false"` the
persistence path does not filter the node out of the stream — it emits
the node. -/
theorem visible_not_filtered_counterexample :
    parse_elements [("node", nodeAttrs "false", [])] =
      .ok [.node ⟨1, 2, 1, []⟩] ∧
    parse_elements [("node", nodeAttrs "false", [])] ≠ .ok [] := by
  refine ⟨rfl, ?_⟩
  intro h
  rw [show parse_elements [("node", nodeAttrs "false", [])] =
    .ok [.node ⟨1, 2, 1, []⟩] from rfl] at h
  simp at h

end OSMDigest
